import Mathlib

/-!
Verification of the structured-logging core (JavaScript `Logger` library):
a shallow embedding of the record-dispatch pipeline (`Logger.js`), the
handler base contract and file-rotation handlers (`handlers.js`), and the
JSON formatter (`formatters.js`), together with theorems settling the
specification's claims about them.

Conventions of the embedding:
* JavaScript numbers appearing as log levels, byte counts and instants are
  modelled as `Nat` (instants are milliseconds); the numeric subset of
  context values is modelled as `Int`.
* Side-effecting dispatch is modelled as a trace of events; the source's
  `try { handler.emit(record) } catch { console.error(...) }` becomes an
  explicit `handlerError` event in the trace, so "an exception is caught and
  reported" is represented, not hidden.
* File-system state touched by the rotating handlers (open stream with its
  `bytesWritten` counter, the current file, the numbered backup files with
  their modification times) is carried in an explicit state record; `rename`
  preserves modification times, `write` stamps the current file with a
  logical clock.
-/

set_option maxHeartbeats 1000000

namespace LoggerSpec

/-- JavaScript values appearing in log calls and structured context:
strings, (integral) numbers, booleans, and plain objects represented as
ordered key-value lists. -/
inductive JVal where
  | str : String → JVal
  | num : Int → JVal
  | bool : Bool → JVal
  | obj : List (String × JVal) → JVal
deriving Repr

/-- JavaScript string coercion as applied by the `%s`-substitution callback
in `Logger._log` (`String(value)` semantics for the modelled value forms). -/
def jvalToString : JVal → String
  | JVal.str s => s
  | JVal.num n => toString n
  | JVal.bool b => cond b "true" "false"
  | JVal.obj _ => "[object Object]"

/-- JavaScript truthiness of a modelled value (used by the formatters'
checks such as `if (record.extra.exc_text)`). -/
def truthy : JVal → Bool
  | JVal.str s => !(s == "")
  | JVal.num n => !(n == 0)
  | JVal.bool b => b
  | JVal.obj _ => true

/-- `Object.entries` on a modelled value: an object yields its key-value
pairs, a string yields index-character pairs, primitives yield nothing. -/
def jsEntriesVal : JVal → List (String × JVal)
  | JVal.obj m => m
  | JVal.str s => s.data.enum.map (fun p => (toString p.1, JVal.str (String.mk [p.2])))
  | _ => []

/-- JavaScript property assignment `data[k] = v` on an object modelled as an
ordered key-value list: an existing key is updated in place, a new key is
appended. -/
def jsSet : List (String × JVal) → String → JVal → List (String × JVal)
  | [], k, v => [(k, v)]
  | (k0, v0) :: rest, k, v =>
    if k0 = k then (k0, v) :: rest else (k0, v0) :: jsSet rest k v

/-- JavaScript property read `data[k]` on an object modelled as an ordered
key-value list (`none` for an absent key). -/
def jsGet : List (String × JVal) → String → Option JVal
  | [], _ => none
  | (k0, v0) :: rest, k => if k0 = k then some v0 else jsGet rest k

/-- The `LogLevel` enumeration object of `Logger.js`:
DEBUG 0, INFO 1, WARNING 2, ERROR 3, CRITICAL 4. -/
def levelEntries : List (String × Nat) :=
  [("DEBUG", 0), ("INFO", 1), ("WARNING", 2), ("ERROR", 3), ("CRITICAL", 4)]

/-- `getLogLevelName` from `Logger.js`: the first `LogLevel` key whose value
equals the given level, or the string UNKNOWN. -/
def getLogLevelName (level : Nat) : String :=
  match levelEntries.find? (fun p => p.2 == level) with
  | some p => p.1
  | none => "UNKNOWN"

/-- `LogRecord` from `Logger.js`. The `extra` field stores the entries of
the record's extra object (the source stores the raw value `args[0]` and the
formatters read it through `Object.entries`; the two views agree through
`jsEntriesVal`). The timestamp is an instant in milliseconds. -/
structure LogRecord where
  name : String
  level : Nat
  message : String
  timestamp : Nat
  extra : List (String × JVal)
deriving Repr

/-- Character-level engine of `message.replace(/%s/g, () => args.shift())`:
each occurrence of the two-character pattern consumes the next positional
argument left to right; an exhausted argument list substitutes the string
undefined, exactly as `args.shift()` returning `undefined` does. Returns the
rewritten text together with the arguments that remain unconsumed. -/
def replaceChars : List Char → List JVal → List Char × List JVal
  | [], args => ([], args)
  | '%' :: 's' :: rest, args =>
    match args with
    | [] =>
      let r := replaceChars rest []
      ("undefined".data ++ r.1, r.2)
    | a :: as =>
      let r := replaceChars rest as
      ((jvalToString a).data ++ r.1, r.2)
  | c :: rest, args =>
    let r := replaceChars rest args
    (c :: r.1, r.2)

/-- Message interpolation step of `Logger._log`: the replacement runs only
when at least one argument was passed (`if (args.length > 0)`), and the
argument array is mutated by the consumed prefix. -/
def formatWithArgs (message : String) (args : List JVal) : String × List JVal :=
  if args.isEmpty then (message, args)
  else
    let r := replaceChars message.data args
    (String.mk r.1, r.2)

/-- The extra object of a record built by `Logger._log`:
`args.length > 0 ? args[0] : {}`, read through `Object.entries`. -/
def extraOf (args : List JVal) : List (String × JVal) :=
  match args with
  | [] => []
  | a :: _ => jsEntriesVal a

/-- The observable state of one handler object for dispatch purposes: its
optional level filter (`Handler.level`, set by `setLevel`) and whether its
`emit` raises (abstracting the concrete I/O side effect). -/
structure HandlerObj where
  levelFilter : Option Nat
  fails : Bool

/-- One observable dispatch event: a record delivered to a handler's `emit`,
or a handler failure caught and reported on the diagnostic channel. -/
inductive Event where
  | emitted : Nat → LogRecord → Event
  | handlerError : Nat → Event

/-- The guarded call `try { handler.emit(record) } catch (error)
{ console.error(...) }` from `Logger._log`, as one trace event. -/
def emitTo (env : Nat → HandlerObj) (h : Nat) (r : LogRecord) : Event :=
  if (env h).fails then Event.handlerError h else Event.emitted h r

/-- The handler loop of `Logger._log`: every handler in list order receives
the record through its `emit`, failures caught per handler. -/
def dispatch (env : Nat → HandlerObj) (hs : List Nat) (r : LogRecord) : List Event :=
  hs.map (fun h => emitTo env h r)

/-- `Handler.filter` from `handlers.js`: `true` when no level is set,
otherwise `record.level >= this.level`. -/
def Handler.filter (h : HandlerObj) (r : LogRecord) : Bool :=
  match h.levelFilter with
  | none => true
  | some l => decide (l ≤ r.level)

/-- `Handler.handle` from `handlers.js`: filter, then emit inside a
try-catch. Returns the trace of that single call. -/
def Handler.handle (env : Nat → HandlerObj) (h : Nat) (r : LogRecord) : List Event :=
  if Handler.filter (env h) r then [emitTo env h r] else []

/-- A `Logger` node from `Logger.js` for dispatch purposes: name, level
threshold, handler list (by handler id), propagate flag, optional parent. -/
inductive LoggerT where
  | mk : String → Nat → List Nat → Bool → Option LoggerT → LoggerT

/-- Name field of a logger node. -/
def LoggerT.name : LoggerT → String
  | LoggerT.mk n _ _ _ _ => n

/-- Level threshold of a logger node. -/
def LoggerT.level : LoggerT → Nat
  | LoggerT.mk _ l _ _ _ => l

/-- Handler list of a logger node. -/
def LoggerT.handlers : LoggerT → List Nat
  | LoggerT.mk _ _ hs _ _ => hs

/-- Propagate flag of a logger node. -/
def LoggerT.propagate : LoggerT → Bool
  | LoggerT.mk _ _ _ p _ => p

/-- Parent reference of a logger node. -/
def LoggerT.parent : LoggerT → Option LoggerT
  | LoggerT.mk _ _ _ _ par => par

/-- `Logger._log` from `Logger.js` as a trace semantics: gate on
`level < this.level`; interpolate the message, consuming positional
arguments; build one record (timestamped `now`); emit to every handler with
per-handler catch; then, if `propagate` and a parent exists, re-invoke the
parent's `_log` with the same level, the original message text, and the
argument list as mutated by the interpolation. -/
def LoggerT._log (env : Nat → HandlerObj) (now : Nat) :
    LoggerT → Nat → String → List JVal → List Event
  | LoggerT.mk nm lv hs pr par, level, message, args =>
    if level < lv then []
    else
      let fr := formatWithArgs message args
      let record : LogRecord := ⟨nm, level, fr.1, now, extraOf fr.2⟩
      dispatch env hs record ++
        (match pr, par with
         | true, some p => LoggerT._log env now p level message fr.2
         | _, _ => [])

/-- Number of `emitted` events a given handler receives in a trace. -/
def countEmits (h : Nat) (evs : List Event) : Nat :=
  evs.countP (fun e =>
    match e with
    | Event.emitted h2 _ => h2 == h
    | _ => false)

/-- A logger object on the heap used to model reference identity for
`getChild`: the mutable fields of `Logger.js` with handlers and children
referenced by id. -/
structure LoggerObj where
  name : String
  level : Nat
  handlers : List Nat
  propagate : Bool
  parentId : Option Nat
  children : List (String × Nat)
deriving Repr

/-- A heap of logger objects; an object's id is its position. -/
abbrev LHeap := List LoggerObj

/-- `Logger.getChild` from `Logger.js`: on a cache hit return the cached
child id; on a miss allocate a new logger named `parent.name + "." + name`,
copy the parent's current level and a snapshot `[...this.handlers]` of its
handler list, set its parent reference, cache it under the relative name,
and return it. `none` only for a dangling parent id. -/
def getChild (h : LHeap) (pid : Nat) (rel : String) : LHeap × Option Nat :=
  match h[pid]? with
  | none => (h, none)
  | some p =>
    match p.children.lookup rel with
    | some cid => (h, some cid)
    | none =>
      let cid := h.length
      let child : LoggerObj :=
        ⟨p.name ++ "." ++ rel, p.level, p.handlers, true, some pid, []⟩
      let h2 := h ++ [child]
      let h3 := h2.set pid { p with children := p.children ++ [(rel, cid)] }
      (h3, some cid)

/-- `Logger.addHandler` from `Logger.js`: push a handler id onto the
logger's handler list. -/
def addHandler (h : LHeap) (lid : Nat) (hid : Nat) : LHeap :=
  match h[lid]? with
  | none => h
  | some l => h.set lid { l with handlers := l.handlers ++ [hid] }

/-- The two console streams. -/
inductive Stream where
  | stdout
  | stderr
deriving Repr, DecidableEq

/-- `ConsoleHandler.emit` from `handlers.js`, restricted to its
stream-selection behaviour: when `this.stream` is still null it is assigned
stderr for `record.level >= 3` (ERROR, CRITICAL) and stdout otherwise, and
the formatted record is written to `this.stream`. Returns the updated
stream field and the stream written to. -/
def ConsoleHandler.emit (stream : Option Stream) (r : LogRecord) :
    Option Stream × Stream :=
  match stream with
  | some st => (some st, st)
  | none =>
    let st := if 3 ≤ r.level then Stream.stderr else Stream.stdout
    (some st, st)

/-- A sequence of `ConsoleHandler.emit` calls threading the handler's
`stream` field, collecting the stream each record was written to. -/
def consoleEmitAll (stream : Option Stream) : List LogRecord → Option Stream × List Stream
  | [] => (stream, [])
  | r :: rs =>
    let one := ConsoleHandler.emit stream r
    let rest := consoleEmitAll one.1 rs
    (rest.1, one.2 :: rest.2)

/-- Rendering of `Date.prototype.toISOString` in the model: instants are
identified by their millisecond count, so the rendering is its decimal text
(the claims never inspect this text, only which key carries it). -/
def toISOString (t : Nat) : String := toString t

/-- `JSONFormatter.format` from `formatters.js`, up to the final
`JSON.stringify`: the JSON object assembled for a record, with JavaScript
assignment semantics. Keys `level` and `message` first; `timestamp` and
`logger` when enabled; `exception` when a truthy `exc_text` is present; then
every remaining context entry (all but `exc_text` and `exc_info`) assigned
at top level in insertion order. -/
def JSONFormatter.formatData (includeTimestamp : Bool) (includeName : Bool)
    (r : LogRecord) : List (String × JVal) :=
  let d0 : List (String × JVal) :=
    [("level", JVal.str (getLogLevelName r.level)),
     ("message", JVal.str r.message)]
  let d1 := if includeTimestamp then jsSet d0 "timestamp" (JVal.str (toISOString r.timestamp)) else d0
  let d2 := if includeName then jsSet d1 "logger" (JVal.str r.name) else d1
  let d3 :=
    match jsGet r.extra "exc_text" with
    | some v => if truthy v then jsSet d2 "exception" v else d2
    | none => d2
  (r.extra.filter (fun p => !(p.1 == "exc_text") && !(p.1 == "exc_info"))).foldl
    (fun d p => jsSet d p.1 p.2) d3

/-- Configuration of a `RotatingFileHandler`: `maxBytes`, `backupCount`,
`maxFiles`. -/
structure RotConfig where
  maxBytes : Nat
  backupCount : Nat
  maxFiles : Nat

/-- One numbered backup file `path.idx` with its modification time. -/
structure BackupFile where
  idx : Nat
  mtime : Nat
deriving Repr, DecidableEq

/-- File-system state of a `RotatingFileHandler`: the open stream's
`bytesWritten` counter (`none` when closed), whether the current file
exists on disk with its modification time, the numbered backups, and a
logical clock stamping writes. -/
structure RotState where
  stream : Option Nat
  diskMain : Bool
  mainMtime : Nat
  backups : List BackupFile
  clock : Nat
deriving Repr, DecidableEq

/-- `fs.unlinkSync` of `path.i` in the model. -/
def removeIdx (i : Nat) (fs : List BackupFile) : List BackupFile :=
  fs.filter (fun f => !(f.idx == i))

/-- `fs.renameSync` of `path.i` to `path.j`: the destination is replaced,
the source keeps its modification time under its new number. -/
def renameIdx (i j : Nat) (fs : List BackupFile) : List BackupFile :=
  (removeIdx j fs).map (fun f => if f.idx = i then ⟨j, f.mtime⟩ else f)

/-- One iteration of the backup-shifting loop in
`RotatingFileHandler.rotate`: if `path.i` exists, remove `path.(i+1)` when
present and rename `path.i` to `path.(i+1)`. -/
def shiftStep (i : Nat) (fs : List BackupFile) : List BackupFile :=
  if fs.any (fun f => f.idx == i) then renameIdx i (i + 1) fs else fs

/-- The whole shifting loop `for (let i = backupCount - 1; i > 0; i--)`,
invoked as `shiftLoop (backupCount - 1)`: indices are processed in
descending order down to 1. -/
def shiftLoop : Nat → List BackupFile → List BackupFile
  | 0, fs => fs
  | Nat.succ j, fs => shiftLoop j (shiftStep (Nat.succ j) fs)

/-- Insertion into a list sorted by ascending modification time. -/
def insertByMtime (f : BackupFile) : List BackupFile → List BackupFile
  | [] => [f]
  | g :: gs => if f.mtime ≤ g.mtime then f :: g :: gs else g :: insertByMtime f gs

/-- The `files.sort` by ascending modification time used before retention
cleanup. -/
def sortByMtime : List BackupFile → List BackupFile
  | [] => []
  | f :: fs => insertByMtime f (sortByMtime fs)

/-- `RotatingFileHandler._cleanupOldFiles`: when more than `maxFiles` files
match `path.*`, delete the oldest excess ones (by modification time). -/
def cleanupOldFiles (cfg : RotConfig) (fs : List BackupFile) : List BackupFile :=
  let sorted := sortByMtime fs
  if cfg.maxFiles < sorted.length then sorted.drop (sorted.length - cfg.maxFiles) else fs

/-- `RotatingFileHandler.rotate`: close the stream; shift the numbered
backups down from `backupCount - 1` to 1; move the current file, when it
exists, to `path.1` (replacing any previous `path.1`, its modification time
preserved by the rename); then run retention cleanup. -/
def RotatingFileHandler.rotate (cfg : RotConfig) (s : RotState) : RotState :=
  let fs1 := shiftLoop (cfg.backupCount - 1) s.backups
  let moved :=
    if s.diskMain then (false, removeIdx 1 fs1 ++ [⟨1, s.mainMtime⟩])
    else (s.diskMain, fs1)
  { stream := none
    diskMain := moved.1
    mainMtime := s.mainMtime
    backups := cleanupOldFiles cfg moved.2
    clock := s.clock }

/-- `FileHandler.emit`'s write step: open the stream when closed (append
mode creates the file, the `bytesWritten` counter starts at zero), write the
formatted record of the given size, stamp the current file's modification
time with the logical clock. -/
def FileHandler.write (size : Nat) (s : RotState) : RotState :=
  { stream := some ((s.stream.getD 0) + size)
    diskMain := true
    mainMtime := s.clock
    backups := s.backups
    clock := s.clock + 1 }

/-- `RotatingFileHandler.emit`: rotate first when the open stream's
`bytesWritten` counter has reached `maxBytes`
(`if (this._file && this._file.bytesWritten >= this.maxBytes)`), then write
the record. -/
def RotatingFileHandler.emit (cfg : RotConfig) (size : Nat) (s : RotState) : RotState :=
  let s1 :=
    match s.stream with
    | some b => if cfg.maxBytes ≤ b then RotatingFileHandler.rotate cfg s else s
    | none => s
  FileHandler.write size s1

/-- `FileHandler.close`: end the stream. -/
def FileHandler.close (s : RotState) : RotState :=
  { s with stream := none }

/-- Externally triggerable operations on a rotating file handler: an
emission of a record of a given formatted size, or a close. -/
inductive RotOp where
  | emit : Nat → RotOp
  | close : RotOp

/-- Run a sequence of operations against a rotating file handler state. -/
def runRot (cfg : RotConfig) (s : RotState) : List RotOp → RotState
  | [] => s
  | RotOp.emit n :: ops => runRot cfg (RotatingFileHandler.emit cfg n s) ops
  | RotOp.close :: ops => runRot cfg (FileHandler.close s) ops

/-- Initial state of a rotating file handler: no open stream, no files. -/
def rotInit : RotState := ⟨none, false, 0, [], 0⟩

/-- Configuration of a `TimedRotatingFileHandler`: the rotation period
(`when`) and the `interval` multiplier. -/
structure TimedConfig where
  whenPeriod : String
  interval : Nat

/-- Rotation-decision state of a `TimedRotatingFileHandler`: the open
stream's byte counter and `this.lastRotation`. The on-disk rename to a
timestamp-suffixed backup and the retention cleanup touch no state read by
`shouldRotate` and follow the size-rotation development. -/
structure TimedState where
  stream : Option Nat
  lastRotation : Nat
deriving Repr, DecidableEq

/-- Model of `Date.prototype.toDateString` up to equality: two instants
render to the same date string exactly when they fall on the same calendar
day, modelled as the day number of the instant. -/
def toDateStringDay (t : Nat) : Nat := t / 86400000

/-- `TimedRotatingFileHandler.shouldRotate`: for `midnight`, the record's
calendar date differs from `lastRotation`'s; for `hour` and `minute`,
the elapsed milliseconds since `lastRotation` reach
`interval` times the period length; `false` for any other period. -/
def TimedRotatingFileHandler.shouldRotate (cfg : TimedConfig) (s : TimedState)
    (timestamp : Nat) : Bool :=
  if cfg.whenPeriod == "midnight" then
    !(toDateStringDay timestamp == toDateStringDay s.lastRotation)
  else if cfg.whenPeriod == "hour" then
    decide (3600 * 1000 * cfg.interval ≤ timestamp - s.lastRotation)
  else if cfg.whenPeriod == "minute" then
    decide (60 * 1000 * cfg.interval ≤ timestamp - s.lastRotation)
  else false

/-- `TimedRotatingFileHandler.rotate`, on the decision state: close the
stream and reset `this.lastRotation = new Date()` to the wall-clock instant
of the rotation. -/
def TimedRotatingFileHandler.rotate (wallNow : Nat) (_s : TimedState) : TimedState :=
  { stream := none, lastRotation := wallNow }

/-- The write step of `FileHandler.emit` on the timed decision state. -/
def TimedState.write (size : Nat) (s : TimedState) : TimedState :=
  { s with stream := some ((s.stream.getD 0) + size) }

/-- `TimedRotatingFileHandler.emit`: rotate first when
`shouldRotate(record.timestamp)` holds — the record's own timestamp is the
decision clock — then write. Also reports whether a rotation happened. -/
def TimedRotatingFileHandler.emit (cfg : TimedConfig) (wallNow : Nat) (size : Nat)
    (timestamp : Nat) (s : TimedState) : TimedState × Bool :=
  if TimedRotatingFileHandler.shouldRotate cfg s timestamp then
    (TimedState.write size (TimedRotatingFileHandler.rotate wallNow s), true)
  else
    (TimedState.write size s, false)

/-- Environment of concrete handler objects used by the closed examples:
handler 0 is well-behaved with no filter, handler 1 always raises from
`emit`, handler 2 carries the level filter ERROR, handler 5 is a second
well-behaved unfiltered handler. -/
def envX : Nat → HandlerObj := fun h =>
  if h == 1 then ⟨none, true⟩
  else if h == 2 then ⟨some 3, false⟩
  else ⟨none, false⟩

/-- Emission count a handler receives from one dispatch loop: zero when its
`emit` raises (the failure is caught and reported instead), otherwise its
multiplicity in the handler list. -/
theorem countEmits_dispatch (env : Nat → HandlerObj) (h : Nat) (hs : List Nat)
    (r : LogRecord) :
    countEmits h (dispatch env hs r) =
      if (env h).fails then 0 else hs.count h := by
  induction hs with
  | nil => simp [dispatch, countEmits]
  | cons h0 tl ih =>
    have hstep : dispatch env (h0 :: tl) r = emitTo env h0 r :: dispatch env tl r := rfl
    rw [hstep]
    unfold countEmits at ih ⊢
    rw [List.countP_cons, List.count_cons]
    by_cases hh : h0 = h
    · subst hh
      by_cases hf : (env h0).fails
      · simp [emitTo, hf, ih]
      · simp [emitTo, hf, ih]
    · have hb : (h0 == h) = false := by simpa using hh
      by_cases hf : (env h0).fails
      · simp [emitTo, hf, ih, hb]
      · simp [emitTo, hf, ih, hb]

/-- Streams stay latched: once the console handler's `stream` field is set,
every further emission writes to that stream and leaves it set. -/
theorem consoleEmitAll_latched (st : Stream) (rs : List LogRecord) :
    consoleEmitAll (some st) rs = (some st, rs.map (fun _ => st)) := by
  induction rs with
  | nil => rfl
  | cons r rs ih => simp [consoleEmitAll, ConsoleHandler.emit, ih]

/-- C2: a log call strictly below the logger's level threshold produces an
empty trace — no record is built and no attached handler receives anything —
while a call at or above the threshold delivers the freshly built record to
every attached handler through its guarded `emit`. -/
theorem claim_C2 (env : Nat → HandlerObj) (now : Nat) (L : LoggerT) (level : Nat)
    (msg : String) (args : List JVal) :
    (level < L.level → LoggerT._log env now L level msg args = []) ∧
    (L.level ≤ level → ∀ h ∈ L.handlers,
      emitTo env h ⟨L.name, level, (formatWithArgs msg args).1, now,
        extraOf (formatWithArgs msg args).2⟩ ∈ LoggerT._log env now L level msg args) := by
  cases L with
  | mk nm lv hs pr par =>
    constructor
    · intro hlt
      simp only [LoggerT.level] at hlt
      simp [LoggerT._log, hlt]
    · intro hle h hmem
      simp only [LoggerT.level] at hle
      simp only [LoggerT.handlers] at hmem
      simp only [LoggerT.name]
      rw [LoggerT._log]
      rw [if_neg (by omega)]
      exact List.mem_append_left _ (List.mem_map_of_mem _ hmem)

/-- C2 witness: a logger at WARNING drops an INFO call outright and delivers
an ERROR call to its attached handler. -/
theorem claim_C2_witness :
    (LoggerT._log envX 7 (LoggerT.mk "app" 2 [0] true none) 1 "m" [] = []) ∧
    emitTo envX 0 ⟨"app", 3, (formatWithArgs "m" []).1, 7,
        extraOf (formatWithArgs "m" []).2⟩ ∈
      LoggerT._log envX 7 (LoggerT.mk "app" 2 [0] true none) 3 "m" [] := by
  constructor
  · exact (claim_C2 envX 7 (LoggerT.mk "app" 2 [0] true none) 1 "m" []).1 (by decide)
  · exact (claim_C2 envX 7 (LoggerT.mk "app" 2 [0] true none) 3 "m" []).2 (by decide)
      0 (by decide)

/-- C1 counterexample: a DEBUG-level child with a CRITICAL-level parent.
The call passes the child's gate, yet the well-behaved handler attached only
to the parent observes the record zero times, not exactly once — the
parent's dispatch re-applies the parent's own level threshold. -/
theorem claim_C1_counterexample :
    countEmits 0 (LoggerT._log envX 0
      (LoggerT.mk "app.db" 0 [] true (some (LoggerT.mk "app" 4 [0] true none)))
      0 "boom" []) = 0 := by
  rfl

/-- C1 (amended): propagation re-invokes the parent's `_log` with the same
level, the original message text and the already-consumed argument list; the
parent re-applies its own level gate and builds its own record, so a
well-behaved sink attached only to the parent observes the message exactly
once when the level also passes the parent's threshold and zero times
otherwise. -/
theorem claim_C1 (env : Nat → HandlerObj) (now level : Nat) (msg : String)
    (args : List JVal) (nm nmp : String) (lv lvp : Nat) (hs hsp : List Nat)
    (h : Nat) (hgate : lv ≤ level) (hnot : h ∉ hs) (hone : hsp.count h = 1)
    (hok : (env h).fails = false) :
    (LoggerT._log env now
        (LoggerT.mk nm lv hs true (some (LoggerT.mk nmp lvp hsp true none)))
        level msg args =
      dispatch env hs ⟨nm, level, (formatWithArgs msg args).1, now,
          extraOf (formatWithArgs msg args).2⟩ ++
        LoggerT._log env now (LoggerT.mk nmp lvp hsp true none) level msg
          (formatWithArgs msg args).2) ∧
    countEmits h (LoggerT._log env now
        (LoggerT.mk nm lv hs true (some (LoggerT.mk nmp lvp hsp true none)))
        level msg args) = if level < lvp then 0 else 1 := by
  have hchild : LoggerT._log env now
      (LoggerT.mk nm lv hs true (some (LoggerT.mk nmp lvp hsp true none)))
      level msg args =
      dispatch env hs ⟨nm, level, (formatWithArgs msg args).1, now,
          extraOf (formatWithArgs msg args).2⟩ ++
        LoggerT._log env now (LoggerT.mk nmp lvp hsp true none) level msg
          (formatWithArgs msg args).2 := by
    rw [LoggerT._log, if_neg (by omega)]
  refine ⟨hchild, ?_⟩
  rw [hchild]
  unfold countEmits
  rw [List.countP_append]
  have hz : countEmits h (dispatch env hs ⟨nm, level, (formatWithArgs msg args).1, now,
      extraOf (formatWithArgs msg args).2⟩) = 0 := by
    rw [countEmits_dispatch, hok]
    simp [List.count_eq_zero.mpr hnot]
  unfold countEmits at hz
  rw [hz, Nat.zero_add]
  by_cases hp : level < lvp
  · rw [LoggerT._log, if_pos hp]
    simp [hp]
  · rw [LoggerT._log, if_neg hp]
    rw [List.countP_append]
    have hone2 : countEmits h (dispatch env hsp
        ⟨nmp, level, (formatWithArgs msg (formatWithArgs msg args).2).1, now,
          extraOf (formatWithArgs msg (formatWithArgs msg args).2).2⟩) = 1 := by
      rw [countEmits_dispatch, hok, hone]
      decide
    unfold countEmits at hone2
    simp [hp, hone2]

/-- C1 witness: with a child at INFO and a parent at WARNING, a WARNING call
on the child is relayed and the parent-only sink sees it exactly once. -/
theorem claim_C1_witness :
    (LoggerT._log envX 0
        (LoggerT.mk "a.b" 1 [] true (some (LoggerT.mk "a" 2 [0] true none)))
        3 "m" [] =
      dispatch envX [] ⟨"a.b", 3, (formatWithArgs "m" []).1, 0,
          extraOf (formatWithArgs "m" []).2⟩ ++
        LoggerT._log envX 0 (LoggerT.mk "a" 2 [0] true none) 3 "m"
          (formatWithArgs "m" []).2) ∧
    countEmits 0 (LoggerT._log envX 0
        (LoggerT.mk "a.b" 1 [] true (some (LoggerT.mk "a" 2 [0] true none)))
        3 "m" []) = if 3 < 2 then 0 else 1 :=
  claim_C1 envX 0 3 "m" [] "a.b" "a" 1 2 [] [0] 0 (by decide) (by decide)
    (by decide) (by rfl)

/-- C3: the failing input for the dispatch path. Handler 2 carries the level
filter ERROR, yet a DEBUG record logged through the logger is delivered to
its `emit` — `Logger._log` calls `handler.emit(record)` directly — although
`Handler.handle`, the prescribed entry point, drops that very record. -/
theorem claim_C3 :
    (LoggerT._log envX 0 (LoggerT.mk "app" 0 [2] true none) 0 "m" [] =
      [Event.emitted 2 ⟨"app", 0, "m", 0, []⟩]) ∧
    Handler.handle envX 2 ⟨"app", 0, "m", 0, []⟩ = [] := by
  exact ⟨rfl, rfl⟩

/-- C4: a handler whose `emit` raises is isolated. Every well-behaved
handler on the same logger still receives the record, and the trace
decomposes as the full handler loop followed by the parent's dispatch —
the failure is reported as a caught event, never thrown to the caller. -/
theorem claim_C4 (env : Nat → HandlerObj) (now level : Nat) (msg : String)
    (args : List JVal) (nm : String) (lv : Nat) (hs : List Nat) (p : LoggerT)
    (hgate : lv ≤ level) :
    (∀ g ∈ hs, (env g).fails = false →
      Event.emitted g ⟨nm, level, (formatWithArgs msg args).1, now,
          extraOf (formatWithArgs msg args).2⟩ ∈
        LoggerT._log env now (LoggerT.mk nm lv hs true (some p)) level msg args) ∧
    LoggerT._log env now (LoggerT.mk nm lv hs true (some p)) level msg args =
      dispatch env hs ⟨nm, level, (formatWithArgs msg args).1, now,
          extraOf (formatWithArgs msg args).2⟩ ++
        LoggerT._log env now p level msg (formatWithArgs msg args).2 := by
  have heq : LoggerT._log env now (LoggerT.mk nm lv hs true (some p)) level msg args =
      dispatch env hs ⟨nm, level, (formatWithArgs msg args).1, now,
          extraOf (formatWithArgs msg args).2⟩ ++
        LoggerT._log env now p level msg (formatWithArgs msg args).2 := by
    rw [LoggerT._log, if_neg (by omega)]
  refine ⟨?_, heq⟩
  intro g hg hgok
  rw [heq]
  refine List.mem_append_left _ ?_
  have : emitTo env g ⟨nm, level, (formatWithArgs msg args).1, now,
      extraOf (formatWithArgs msg args).2⟩ =
      Event.emitted g ⟨nm, level, (formatWithArgs msg args).1, now,
        extraOf (formatWithArgs msg args).2⟩ := by
    unfold emitTo
    rw [hgok]
    rfl
  rw [← this]
  exact List.mem_map_of_mem _ hg

/-- C4 witness: with the always-raising handler 1 listed before the
well-behaved handler 0, an INFO call still reaches handler 0 and the parent
dispatch. -/
theorem claim_C4_witness :
    (∀ g ∈ [1, 0], (envX g).fails = false →
      Event.emitted g ⟨"app", 1, (formatWithArgs "m" []).1, 0,
          extraOf (formatWithArgs "m" []).2⟩ ∈
        LoggerT._log envX 0
          (LoggerT.mk "app" 1 [1, 0] true (some (LoggerT.mk "root" 1 [5] true none)))
          1 "m" []) ∧
    LoggerT._log envX 0
        (LoggerT.mk "app" 1 [1, 0] true (some (LoggerT.mk "root" 1 [5] true none)))
        1 "m" [] =
      dispatch envX [1, 0] ⟨"app", 1, (formatWithArgs "m" []).1, 0,
          extraOf (formatWithArgs "m" []).2⟩ ++
        LoggerT._log envX 0 (LoggerT.mk "root" 1 [5] true none) 1 "m"
          (formatWithArgs "m" []).2 :=
  claim_C4 envX 0 1 "m" [] "app" 1 [1, 0] (LoggerT.mk "root" 1 [5] true none)
    (by decide)

/-- C10: a console handler constructed without a stream latches the output
stream on its first emission — stderr when that record's level is at least
ERROR, stdout otherwise — and every subsequent record is written to that
same stream regardless of its own level. -/
theorem claim_C10 (r : LogRecord) (rs : List LogRecord) :
    consoleEmitAll none (r :: rs) =
      (some (if 3 ≤ r.level then Stream.stderr else Stream.stdout),
        (if 3 ≤ r.level then Stream.stderr else Stream.stdout) ::
          rs.map (fun _ => if 3 ≤ r.level then Stream.stderr else Stream.stdout)) := by
  simp [consoleEmitAll, ConsoleHandler.emit, consoleEmitAll_latched]

/-- Appending a fresh key to an association list makes `lookup` of that key
find it. -/
theorem lookup_append_of_none {β : Type} (l : List (String × β)) (k : String) (v : β)
    (hnone : l.lookup k = none) : (l ++ [(k, v)]).lookup k = some v := by
  induction l with
  | nil => simp [List.lookup]
  | cons a tl ih =>
    cases a with
    | mk k0 v0 =>
      by_cases hk : k = k0
      · subst hk
        simp [List.lookup] at hnone
      · have hb : (k == k0) = false := by simpa using hk
        simp only [List.lookup, List.cons_append, hb] at hnone ⊢
        exact ih hnone

/-- An id with a resolvable object is inside the heap. -/
theorem lt_length_of_getElem_some {α : Type} (l : List α) (i : Nat) (a : α)
    (h : l[i]? = some a) : i < l.length := by
  by_contra hcon
  rw [List.getElem?_eq_none (by omega)] at h
  exact absurd h (by simp)

/-- A call to `getChild` whose relative name is already cached returns the
cached id and leaves the heap untouched. -/
theorem getChild_of_hit (h : LHeap) (pid : Nat) (rel : String) (q : LoggerObj)
    (cid : Nat) (hq : h[pid]? = some q) (hcid : q.children.lookup rel = some cid) :
    getChild h pid rel = (h, some cid) := by
  simp [getChild, hq, hcid]

/-- Unfolding of `addHandler` at a resolvable logger id. -/
theorem addHandler_of_some (h : LHeap) (lid hid : Nat) (q : LoggerObj)
    (hq : h[lid]? = some q) :
    addHandler h lid hid = h.set lid { q with handlers := q.handlers ++ [hid] } := by
  simp [addHandler, hq]

/-- C8: on a cache miss, `getChild` allocates the child at the next heap id
with name `parent.name + "." + relative`, the parent's current level, a
snapshot of the parent's handler list and a parent back-reference; a second
call with the same relative name is a cache hit that returns the very same
id and leaves the heap untouched; and pushing a handler onto the parent
afterwards does not change the child object. -/
theorem claim_C8 (h : LHeap) (pid : Nat) (rel : String) (p : LoggerObj)
    (hp : h[pid]? = some p) (hmiss : p.children.lookup rel = none) :
    ((getChild h pid rel).2 = some h.length ∧
      (getChild h pid rel).1[h.length]? =
        some (⟨p.name ++ "." ++ rel, p.level, p.handlers, true, some pid, []⟩ : LoggerObj)) ∧
    getChild (getChild h pid rel).1 pid rel = ((getChild h pid rel).1, some h.length) ∧
    (∀ hid, (addHandler (getChild h pid rel).1 pid hid)[h.length]? =
      (getChild h pid rel).1[h.length]?) := by
  have hlt : pid < h.length := lt_length_of_getElem_some h pid p hp
  have hne : pid ≠ h.length := by omega
  have hres : getChild h pid rel =
      ((h ++ [(⟨p.name ++ "." ++ rel, p.level, p.handlers, true, some pid, []⟩ :
          LoggerObj)]).set pid
          { p with children := p.children ++ [(rel, h.length)] },
        some h.length) := by
    simp [getChild, hp, hmiss]
  have hchildAt : (getChild h pid rel).1[h.length]? =
      some (⟨p.name ++ "." ++ rel, p.level, p.handlers, true, some pid, []⟩ : LoggerObj) := by
    rw [hres]
    rw [List.getElem?_set_ne hne]
    exact List.getElem?_concat_length _ _
  have hparentAt : (getChild h pid rel).1[pid]? =
      some { p with children := p.children ++ [(rel, h.length)] } := by
    rw [hres]
    have happ : (h ++ [(⟨p.name ++ "." ++ rel, p.level, p.handlers, true, some pid, []⟩ :
        LoggerObj)])[pid]? = some p := by
      rw [List.getElem?_append_left hlt]
      exact hp
    show ((h ++ [(⟨p.name ++ "." ++ rel, p.level, p.handlers, true, some pid, []⟩ :
        LoggerObj)]).set pid
        { p with children := p.children ++ [(rel, h.length)] })[pid]? = _
    rw [List.getElem?_set_self', happ]
    rfl
  refine ⟨⟨by rw [hres], hchildAt⟩, ?_, ?_⟩
  · exact getChild_of_hit (getChild h pid rel).1 pid rel
      { p with children := p.children ++ [(rel, h.length)] } h.length hparentAt
      (lookup_append_of_none p.children rel h.length hmiss)
  · intro hid
    rw [addHandler_of_some (getChild h pid rel).1 pid hid
      { p with children := p.children ++ [(rel, h.length)] } hparentAt]
    rw [List.getElem?_set_ne hne]

/-- C8 witness: a one-logger heap; creating child db of the root, calling
again, and then adding a handler to the root exercises every clause. -/
theorem claim_C8_witness :
    ((getChild [(⟨"root", 1, [5], true, none, []⟩ : LoggerObj)] 0 "db").2 = some 1 ∧
      (getChild [(⟨"root", 1, [5], true, none, []⟩ : LoggerObj)] 0 "db").1[1]? =
        some ⟨"root" ++ "." ++ "db", 1, [5], true, some 0, []⟩) ∧
    getChild (getChild [(⟨"root", 1, [5], true, none, []⟩ : LoggerObj)] 0 "db").1 0 "db" =
      ((getChild [(⟨"root", 1, [5], true, none, []⟩ : LoggerObj)] 0 "db").1, some 1) ∧
    (∀ hid, (addHandler
        (getChild [(⟨"root", 1, [5], true, none, []⟩ : LoggerObj)] 0 "db").1 0 hid)[1]? =
      (getChild [(⟨"root", 1, [5], true, none, []⟩ : LoggerObj)] 0 "db").1[1]?) :=
  claim_C8 [(⟨"root", 1, [5], true, none, []⟩ : LoggerObj)] 0 "db"
    ⟨"root", 1, [5], true, none, []⟩ (by rfl) (by rfl)

/-- Reading back the key just assigned recovers the assigned value. -/
theorem jsGet_jsSet_self (d : List (String × JVal)) (k : String) (v : JVal) :
    jsGet (jsSet d k v) k = some v := by
  induction d with
  | nil => simp [jsSet, jsGet]
  | cons a tl ih =>
    cases a with
    | mk k0 v0 =>
      by_cases hk : k0 = k
      · subst hk
        simp [jsSet, jsGet]
      · simp [jsSet, jsGet, hk, ih]

/-- Assignment to one key leaves reads of any other key unchanged. -/
theorem jsGet_jsSet_ne (d : List (String × JVal)) (k k2 : String) (v : JVal)
    (hne : k ≠ k2) : jsGet (jsSet d k v) k2 = jsGet d k2 := by
  induction d with
  | nil => simp [jsSet, jsGet, hne]
  | cons a tl ih =>
    cases a with
    | mk k0 v0 =>
      by_cases hk : k0 = k
      · subst hk
        simp [jsSet, jsGet, hne]
      · simp only [jsSet, if_neg hk]
        by_cases hk2 : k0 = k2
        · subst hk2
          simp [jsGet]
        · simp [jsGet, hk2, ih]

/-- A key absent from an object reads as `none`. -/
theorem jsGet_eq_none (l : List (String × JVal)) (k : String)
    (hk : ∀ p ∈ l, p.1 ≠ k) : jsGet l k = none := by
  induction l with
  | nil => rfl
  | cons a tl ih =>
    cases a with
    | mk k0 v0 =>
      have hne : k0 ≠ k := hk (k0, v0) (by simp)
      simp only [jsGet, if_neg hne]
      exact ih (fun p hp => hk p (by simp [hp]))

/-- Folding assignments whose keys all differ from `k` leaves reads of `k`
unchanged. -/
theorem jsGet_fold_not_mem (l : List (String × JVal)) (d : List (String × JVal))
    (k : String) (hk : ∀ p ∈ l, p.1 ≠ k) :
    jsGet (l.foldl (fun d p => jsSet d p.1 p.2) d) k = jsGet d k := by
  induction l generalizing d with
  | nil => rfl
  | cons a tl ih =>
    simp only [List.foldl_cons]
    rw [ih (jsSet d a.1 a.2) (fun p hp => hk p (by simp [hp]))]
    exact jsGet_jsSet_ne d a.1 k a.2 (hk a (by simp))

/-- Folding assignments from an object with pairwise distinct keys makes
each of its entries readable back with its original value. -/
theorem jsGet_fold_mem (l : List (String × JVal)) (d : List (String × JVal))
    (k : String) (v : JVal) (hmem : (k, v) ∈ l) (hnodup : (l.map Prod.fst).Nodup) :
    jsGet (l.foldl (fun d p => jsSet d p.1 p.2) d) k = some v := by
  induction l generalizing d with
  | nil => exact absurd hmem (by simp)
  | cons a tl ih =>
    rw [List.map_cons, List.nodup_cons] at hnodup
    simp only [List.foldl_cons]
    rcases List.mem_cons.mp hmem with heq | htl
    · have hk : ∀ p ∈ tl, p.1 ≠ k := by
        intro p hp hcon
        apply hnodup.1
        rw [← heq]
        have hmm := List.mem_map_of_mem Prod.fst hp
        rw [hcon] at hmm
        simpa using hmm
      rw [jsGet_fold_not_mem tl (jsSet d a.1 a.2) k hk, ← heq]
      exact jsGet_jsSet_self d k v
    · exact ih (jsSet d a.1 a.2) htl hnodup.2

/-- Reads of a key other than `timestamp` and `logger`, absent from the
record's context, fall through the assembled JSON object to the initial
two-key object holding `level` and `message`. -/
theorem jsGet_formatData_base (it iname : Bool) (r : LogRecord) (k : String)
    (hexc : jsGet r.extra "exc_text" = none)
    (hk1 : k ≠ "timestamp") (hk2 : k ≠ "logger")
    (hfold : ∀ p ∈ r.extra, p.1 ≠ k) :
    jsGet (JSONFormatter.formatData it iname r) k =
      jsGet [("level", JVal.str (getLogLevelName r.level)),
        ("message", JVal.str r.message)] k := by
  unfold JSONFormatter.formatData
  rw [hexc]
  rw [jsGet_fold_not_mem _ _ k
    (fun p hp => hfold p (List.mem_of_mem_filter hp))]
  cases it <;> cases iname <;>
    simp [jsGet_jsSet_ne _ _ _ _ (Ne.symm hk1), jsGet_jsSet_ne _ _ _ _ (Ne.symm hk2)]

/-- C9 counterexample: a record whose context carries its own `message` key
overwrites the record's message in the flattened JSON object, so parsing the
formatted line cannot recover the record's message. -/
theorem claim_C9_counterexample :
    jsGet (JSONFormatter.formatData true true
        ⟨"app", 1, "hi", 0, [("message", JVal.str "bye")]⟩) "message" ≠
      some (JVal.str "hi") := by
  intro hcon
  have h1 : jsGet (JSONFormatter.formatData true true
      ⟨"app", 1, "hi", 0, [("message", JVal.str "bye")]⟩) "message" =
      some (JVal.str "bye") := rfl
  rw [h1] at hcon
  injection hcon with h2
  injection h2 with h3
  exact absurd h3 (by decide)

/-- C9 (amended): for a record whose context keys are pairwise distinct and
avoid the colliding keys `level` and `message` and the reserved keys
`exc_text` and `exc_info`, the assembled JSON object — what
`JSON.stringify` serialises and `JSON.parse` recovers — carries the record's
level name under `level`, its message under `message`, and every context
entry under its own key with its original value. -/
theorem claim_C9 (it iname : Bool) (r : LogRecord)
    (hnodup : (r.extra.map Prod.fst).Nodup)
    (hkeys : ∀ p ∈ r.extra, p.1 ≠ "level" ∧ p.1 ≠ "message" ∧
      p.1 ≠ "exc_text" ∧ p.1 ≠ "exc_info") :
    jsGet (JSONFormatter.formatData it iname r) "level" =
      some (JVal.str (getLogLevelName r.level)) ∧
    jsGet (JSONFormatter.formatData it iname r) "message" =
      some (JVal.str r.message) ∧
    ∀ p ∈ r.extra, jsGet (JSONFormatter.formatData it iname r) p.1 = some p.2 := by
  have hexc : jsGet r.extra "exc_text" = none :=
    jsGet_eq_none r.extra "exc_text" (fun p hp => (hkeys p hp).2.2.1)
  have hfilter : r.extra.filter
      (fun p => !(p.1 == "exc_text") && !(p.1 == "exc_info")) = r.extra := by
    rw [List.filter_eq_self]
    intro p hp
    have h1 := (hkeys p hp).2.2.1
    have h2 := (hkeys p hp).2.2.2
    simp [h1, h2]
  refine ⟨?_, ?_, ?_⟩
  · rw [jsGet_formatData_base it iname r "level" hexc (by decide) (by decide)
      (fun p hp => (hkeys p hp).1)]
    rfl
  · rw [jsGet_formatData_base it iname r "message" hexc (by decide) (by decide)
      (fun p hp => (hkeys p hp).2.1)]
    rfl
  · intro p hp
    unfold JSONFormatter.formatData
    rw [hexc, hfilter]
    exact jsGet_fold_mem r.extra _ p.1 p.2 hp hnodup

/-- C9 witness: a record with string, number and boolean context values is
recovered in full from the assembled JSON object. -/
theorem claim_C9_witness :
    jsGet (JSONFormatter.formatData true true
        ⟨"app", 1, "ok", 5, [("userId", JVal.num 123), ("active", JVal.bool true),
          ("ip", JVal.str "home")]⟩) "level" =
      some (JVal.str (getLogLevelName 1)) ∧
    jsGet (JSONFormatter.formatData true true
        ⟨"app", 1, "ok", 5, [("userId", JVal.num 123), ("active", JVal.bool true),
          ("ip", JVal.str "home")]⟩) "message" = some (JVal.str "ok") ∧
    ∀ p ∈ ([("userId", JVal.num 123), ("active", JVal.bool true),
        ("ip", JVal.str "home")] : List (String × JVal)),
      jsGet (JSONFormatter.formatData true true
        ⟨"app", 1, "ok", 5, [("userId", JVal.num 123), ("active", JVal.bool true),
          ("ip", JVal.str "home")]⟩) p.1 = some p.2 :=
  claim_C9 true true
    ⟨"app", 1, "ok", 5, [("userId", JVal.num 123), ("active", JVal.bool true),
      ("ip", JVal.str "home")]⟩
    (by decide)
    (by decide)

/-- Membership after sorted insertion comes from the inserted file or the
original list. -/
theorem mem_insertByMtime (f g : BackupFile) (l : List BackupFile)
    (hg : g ∈ insertByMtime f l) : g = f ∨ g ∈ l := by
  induction l with
  | nil => simpa [insertByMtime] using hg
  | cons a tl ih =>
    simp only [insertByMtime] at hg
    by_cases hle : f.mtime ≤ a.mtime
    · rw [if_pos hle] at hg
      rcases List.mem_cons.mp hg with h | h
      · exact Or.inl h
      · exact Or.inr h
    · rw [if_neg hle] at hg
      rcases List.mem_cons.mp hg with h | h
      · exact Or.inr (by simp [h])
      · rcases ih h with h2 | h2
        · exact Or.inl h2
        · exact Or.inr (by simp [h2])

/-- Sorting by modification time permutes, so preserves membership. -/
theorem mem_sortByMtime (g : BackupFile) (l : List BackupFile)
    (hg : g ∈ sortByMtime l) : g ∈ l := by
  induction l with
  | nil => exact hg
  | cons a tl ih =>
    rcases mem_insertByMtime a g (sortByMtime tl) hg with h | h
    · simp [h]
    · simp [ih h]

/-- Retention cleanup only deletes files. -/
theorem mem_cleanupOldFiles (cfg : RotConfig) (g : BackupFile) (l : List BackupFile)
    (hg : g ∈ cleanupOldFiles cfg l) : g ∈ l := by
  unfold cleanupOldFiles at hg
  by_cases hlen : cfg.maxFiles < (sortByMtime l).length
  · rw [if_pos hlen] at hg
    exact mem_sortByMtime g l (List.drop_subset _ _ hg)
  · rwa [if_neg hlen] at hg

/-- Renaming `path.i` to `path.j` keeps every index inside a property that
holds of the originals and of `j`. -/
theorem renameIdx_idx_bound (P : Nat → Prop) (i j : Nat) (l : List BackupFile)
    (hl : ∀ f ∈ l, P f.idx) (hj : P j) :
    ∀ g ∈ renameIdx i j l, P g.idx := by
  intro g hg
  unfold renameIdx at hg
  rcases List.mem_map.mp hg with ⟨f, hf, hfe⟩
  by_cases hfi : f.idx = i
  · rw [if_pos hfi] at hfe
    rw [← hfe]
    exact hj
  · rw [if_neg hfi] at hfe
    rw [← hfe]
    exact hl f (List.mem_of_mem_filter hf)

/-- One shift iteration keeps every index inside a property that holds of
the originals and of the shift target `i + 1`. -/
theorem shiftStep_idx_bound (P : Nat → Prop) (i : Nat) (l : List BackupFile)
    (hl : ∀ f ∈ l, P f.idx) (hi : P (i + 1)) :
    ∀ g ∈ shiftStep i l, P g.idx := by
  intro g hg
  unfold shiftStep at hg
  by_cases hany : l.any (fun f => f.idx == i)
  · rw [if_pos hany] at hg
    exact renameIdx_idx_bound P i (i + 1) l hl hi g hg
  · rw [if_neg hany] at hg
    exact hl g hg

/-- The whole shift loop started at `k` with `k + 1 ≤ backupCount` keeps
every numbered backup in the band `1 .. backupCount`. -/
theorem shiftLoop_idx_bound (bc : Nat) :
    ∀ k, k + 1 ≤ bc → ∀ l, (∀ f ∈ l, 1 ≤ f.idx ∧ f.idx ≤ bc) →
      ∀ g ∈ shiftLoop k l, 1 ≤ g.idx ∧ g.idx ≤ bc := by
  intro k
  induction k with
  | zero =>
    intro _ l hl
    simpa [shiftLoop] using hl
  | succ j ih =>
    intro hk l hl
    have hstep : ∀ g ∈ shiftStep (Nat.succ j) l, 1 ≤ g.idx ∧ g.idx ≤ bc :=
      shiftStep_idx_bound (fun n => 1 ≤ n ∧ n ≤ bc) (Nat.succ j) l hl
        ⟨by omega, by omega⟩
    exact fun g hg => ih (by omega) (shiftStep (Nat.succ j) l) hstep g hg

/-- Rotation keeps every numbered backup in the band `1 .. backupCount`
whenever `backupCount ≥ 1`. -/
theorem rotate_idx_bound (cfg : RotConfig) (hbc : 1 ≤ cfg.backupCount) (s : RotState)
    (hs : ∀ f ∈ s.backups, 1 ≤ f.idx ∧ f.idx ≤ cfg.backupCount) :
    ∀ g ∈ (RotatingFileHandler.rotate cfg s).backups,
      1 ≤ g.idx ∧ g.idx ≤ cfg.backupCount := by
  intro g hg
  unfold RotatingFileHandler.rotate at hg
  simp only at hg
  have hshift : ∀ f ∈ shiftLoop (cfg.backupCount - 1) s.backups,
      1 ≤ f.idx ∧ f.idx ≤ cfg.backupCount :=
    shiftLoop_idx_bound cfg.backupCount (cfg.backupCount - 1) (by omega) s.backups hs
  have hg2 := mem_cleanupOldFiles cfg g _ hg
  by_cases hd : s.diskMain
  · rw [if_pos hd] at hg2
    simp only at hg2
    rcases List.mem_append.mp hg2 with h | h
    · exact hshift g (List.mem_of_mem_filter h)
    · have : g = ⟨1, s.mainMtime⟩ := by simpa using h
      rw [this]
      exact ⟨le_refl 1, hbc⟩
  · rw [if_neg hd] at hg2
    exact hshift g hg2

/-- Every state reachable by emissions and closes keeps every numbered
backup in the band `1 .. backupCount` whenever `backupCount ≥ 1`. -/
theorem runRot_idx_bound (cfg : RotConfig) (hbc : 1 ≤ cfg.backupCount)
    (ops : List RotOp) :
    ∀ s, (∀ f ∈ s.backups, 1 ≤ f.idx ∧ f.idx ≤ cfg.backupCount) →
      ∀ g ∈ (runRot cfg s ops).backups, 1 ≤ g.idx ∧ g.idx ≤ cfg.backupCount := by
  induction ops with
  | nil =>
    intro s hs
    simpa [runRot] using hs
  | cons op tl ih =>
    intro s hs
    cases op with
    | emit n =>
      have hnext : ∀ f ∈ (RotatingFileHandler.emit cfg n s).backups,
          1 ≤ f.idx ∧ f.idx ≤ cfg.backupCount := by
        unfold RotatingFileHandler.emit FileHandler.write
        cases hstream : s.stream with
        | none => simpa using hs
        | some b =>
          by_cases hmax : cfg.maxBytes ≤ b
          · simp only [hmax, if_true]
            simpa using rotate_idx_bound cfg hbc s hs
          · simp only [hmax, if_false]
            simpa using hs
      exact fun g hg => ih (RotatingFileHandler.emit cfg n s) hnext g hg
    | close =>
      have hnext : ∀ f ∈ (FileHandler.close s).backups,
          1 ≤ f.idx ∧ f.idx ≤ cfg.backupCount := by
        simpa [FileHandler.close] using hs
      exact fun g hg => ih (FileHandler.close s) hnext g hg

/-- C5: when the open stream's byte counter has reached `maxBytes`, `emit`
rotates before writing — the new record lands in a fresh file whose counter
is exactly the record's size — and, for any `backupCount ≥ 1`, every state
reachable from a fresh handler keeps the numbered backups within
`path.1 .. path.backupCount`; in particular `path.(backupCount+1)` never
exists. -/
theorem claim_C5 (cfg : RotConfig) :
    (∀ s n b, s.stream = some b → cfg.maxBytes ≤ b →
      RotatingFileHandler.emit cfg n s =
        FileHandler.write n (RotatingFileHandler.rotate cfg s) ∧
      (RotatingFileHandler.emit cfg n s).stream = some n) ∧
    (1 ≤ cfg.backupCount → ∀ ops g, g ∈ (runRot cfg rotInit ops).backups →
      1 ≤ g.idx ∧ g.idx ≤ cfg.backupCount) := by
  constructor
  · intro s n b hb hmax
    have hemit : RotatingFileHandler.emit cfg n s =
        FileHandler.write n (RotatingFileHandler.rotate cfg s) := by
      unfold RotatingFileHandler.emit
      rw [hb]
      simp [hmax]
    refine ⟨hemit, ?_⟩
    rw [hemit]
    unfold FileHandler.write RotatingFileHandler.rotate
    simp
  · intro hbc ops g hg
    exact runRot_idx_bound cfg hbc ops rotInit (by simp [rotInit]) g hg

/-- C5 witness: with `maxBytes = 5`, `backupCount = 2`, a stream at 7 bytes
rotates before the 3-byte write, and the backup created by a concrete run
sits at index 1 within the band. -/
theorem claim_C5_witness :
    (RotatingFileHandler.emit ⟨5, 2, 100⟩ 3 ⟨some 7, true, 0, [], 1⟩ =
      FileHandler.write 3 (RotatingFileHandler.rotate ⟨5, 2, 100⟩ ⟨some 7, true, 0, [], 1⟩) ∧
     (RotatingFileHandler.emit ⟨5, 2, 100⟩ 3 ⟨some 7, true, 0, [], 1⟩).stream = some 3) ∧
    (1 ≤ (⟨1, 0⟩ : BackupFile).idx ∧ (⟨1, 0⟩ : BackupFile).idx ≤ 2) :=
  ⟨(claim_C5 ⟨5, 2, 100⟩).1 ⟨some 7, true, 0, [], 1⟩ 3 7 rfl (by decide),
   (claim_C5 ⟨5, 2, 100⟩).2 (by decide) [RotOp.emit 10, RotOp.emit 2] ⟨1, 0⟩ (by decide)⟩

/-- C6 counterexample: with `backupCount = 0`, a size-triggered rotation
still renames the current file to `path.1` — after two emissions that cross
`maxBytes`, the numbered backup `path.1` exists, contradicting truncation in
place with no numbered backups. -/
theorem claim_C6_counterexample :
    (runRot ⟨5, 0, 100⟩ rotInit [RotOp.emit 10, RotOp.emit 3]).backups =
      [⟨1, 0⟩] := by
  rfl

/-- C6 (amended): with `backup_count = 0` the shift loop does nothing, but
`rotate()` does not truncate in place: it still renames the current file to
`path.1`, creating a numbered backup, closes the stream and leaves the
current path vacant until the next write recreates it. -/
theorem claim_C6 (cfg : RotConfig) (s : RotState) (hbc : cfg.backupCount = 0)
    (hmf : 1 ≤ cfg.maxFiles) (hdisk : s.diskMain = true) (hemp : s.backups = []) :
    (RotatingFileHandler.rotate cfg s).backups = [⟨1, s.mainMtime⟩] ∧
    (RotatingFileHandler.rotate cfg s).diskMain = false ∧
    (RotatingFileHandler.rotate cfg s).stream = none := by
  have hclean : cleanupOldFiles cfg [⟨1, s.mainMtime⟩] = [⟨1, s.mainMtime⟩] := by
    unfold cleanupOldFiles
    have hsort : sortByMtime [(⟨1, s.mainMtime⟩ : BackupFile)] = [⟨1, s.mainMtime⟩] := rfl
    rw [hsort]
    rw [if_neg ?hlen]
    case hlen =>
      simp only [List.length_singleton]
      omega
  have hrot : RotatingFileHandler.rotate cfg s =
      { stream := none, diskMain := false, mainMtime := s.mainMtime,
        backups := cleanupOldFiles cfg [⟨1, s.mainMtime⟩], clock := s.clock } := by
    unfold RotatingFileHandler.rotate
    rw [hbc, hemp, hdisk]
    rfl
  rw [hrot]
  exact ⟨hclean, rfl, rfl⟩

/-- C6 witness: a concrete rotation with `backupCount = 0` from a state with
an existing current file. -/
theorem claim_C6_witness :
    (RotatingFileHandler.rotate ⟨5, 0, 100⟩ ⟨some 10, true, 4, [], 7⟩).backups =
      [⟨1, 4⟩] ∧
    (RotatingFileHandler.rotate ⟨5, 0, 100⟩ ⟨some 10, true, 4, [], 7⟩).diskMain = false ∧
    (RotatingFileHandler.rotate ⟨5, 0, 100⟩ ⟨some 10, true, 4, [], 7⟩).stream = none :=
  claim_C6 ⟨5, 0, 100⟩ ⟨some 10, true, 4, [], 7⟩ rfl (by decide) rfl rfl

/-- The rotation flag returned by a timed emit is exactly the value of
`shouldRotate` at the record's timestamp. -/
theorem timedEmit_rotated (cfg : TimedConfig) (w n t : Nat) (s2 : TimedState) :
    (TimedRotatingFileHandler.emit cfg w n t s2).2 =
      TimedRotatingFileHandler.shouldRotate cfg s2 t := by
  unfold TimedRotatingFileHandler.emit
  cases h : TimedRotatingFileHandler.shouldRotate cfg s2 t <;> simp [h]

/-- A timed emit that decides not to rotate only performs the write. -/
theorem timedEmit_state_no_rotation (cfg : TimedConfig) (w n t : Nat)
    (s2 : TimedState)
    (h : TimedRotatingFileHandler.shouldRotate cfg s2 t = false) :
    (TimedRotatingFileHandler.emit cfg w n t s2).1 = TimedState.write n s2 := by
  unfold TimedRotatingFileHandler.emit
  rw [h]
  simp

/-- C7: `shouldRotate` with period `midnight` is true exactly when the
record's calendar date differs from `lastRotation`'s; with `hour` or
`minute` (and a record no older than the last rotation) exactly when the
elapsed milliseconds reach `interval` times the period length. Two
emissions with `midnight`, the first on `lastRotation`'s date, rotate
exactly once between them when their dates differ and never when they
coincide. -/
theorem claim_C7 (cfg : TimedConfig) (s : TimedState) :
    (cfg.whenPeriod = "midnight" →
      ∀ t, TimedRotatingFileHandler.shouldRotate cfg s t = true ↔
        toDateStringDay t ≠ toDateStringDay s.lastRotation) ∧
    (cfg.whenPeriod = "hour" →
      ∀ t, s.lastRotation ≤ t →
        (TimedRotatingFileHandler.shouldRotate cfg s t = true ↔
          3600 * 1000 * cfg.interval ≤ t - s.lastRotation)) ∧
    (cfg.whenPeriod = "minute" →
      ∀ t, s.lastRotation ≤ t →
        (TimedRotatingFileHandler.shouldRotate cfg s t = true ↔
          60 * 1000 * cfg.interval ≤ t - s.lastRotation)) ∧
    (cfg.whenPeriod = "midnight" →
      ∀ t1 t2 w1 w2 n1 n2, toDateStringDay s.lastRotation = toDateStringDay t1 →
        ((toDateStringDay t1 ≠ toDateStringDay t2 →
          (TimedRotatingFileHandler.emit cfg w1 n1 t1 s).2 = false ∧
          (TimedRotatingFileHandler.emit cfg w2 n2 t2
            (TimedRotatingFileHandler.emit cfg w1 n1 t1 s).1).2 = true) ∧
        (toDateStringDay t1 = toDateStringDay t2 →
          (TimedRotatingFileHandler.emit cfg w1 n1 t1 s).2 = false ∧
          (TimedRotatingFileHandler.emit cfg w2 n2 t2
            (TimedRotatingFileHandler.emit cfg w1 n1 t1 s).1).2 = false))) := by
  have hmid : ∀ s2 : TimedState, cfg.whenPeriod = "midnight" →
      ∀ t, TimedRotatingFileHandler.shouldRotate cfg s2 t =
        !(toDateStringDay t == toDateStringDay s2.lastRotation) := by
    intro s2 hw t
    unfold TimedRotatingFileHandler.shouldRotate
    rw [hw]
    rfl
  refine ⟨?_, ?_, ?_, ?_⟩
  · intro hw t
    rw [hmid s hw t]
    simp
  · intro hw t _ht
    unfold TimedRotatingFileHandler.shouldRotate
    rw [hw]
    simp
  · intro hw t _ht
    unfold TimedRotatingFileHandler.shouldRotate
    rw [hw]
    simp
  · intro hw t1 t2 w1 w2 n1 n2 halign
    have hfirst : TimedRotatingFileHandler.shouldRotate cfg s t1 = false := by
      rw [hmid s hw t1, halign]
      simp
    have hres1 : (TimedRotatingFileHandler.emit cfg w1 n1 t1 s).2 = false := by
      rw [timedEmit_rotated]
      exact hfirst
    have hstate : (TimedRotatingFileHandler.emit cfg w1 n1 t1 s).1 =
        TimedState.write n1 s :=
      timedEmit_state_no_rotation cfg w1 n1 t1 s hfirst
    have hsecond : TimedRotatingFileHandler.shouldRotate cfg
        (TimedRotatingFileHandler.emit cfg w1 n1 t1 s).1 t2 =
        !(toDateStringDay t2 == toDateStringDay t1) := by
      rw [hmid (TimedRotatingFileHandler.emit cfg w1 n1 t1 s).1 hw t2]
      rw [hstate]
      show (!(toDateStringDay t2 == toDateStringDay s.lastRotation)) = _
      rw [halign]
    constructor
    · intro hdiff
      refine ⟨hres1, ?_⟩
      rw [timedEmit_rotated, hsecond]
      have hb : (toDateStringDay t2 == toDateStringDay t1) = false := by
        simp [Ne.symm hdiff]
      rw [hb]
      rfl
    · intro hsame
      refine ⟨hres1, ?_⟩
      rw [timedEmit_rotated, hsecond, hsame]
      simp

/-- C7 witness: a state last rotated at instant 50 (day 0), an emission at
instant 100 the same day and one at 86400005 the next day rotate exactly
once; the hour-period check fires after two hours with interval 2. -/
theorem claim_C7_witness :
    (TimedRotatingFileHandler.shouldRotate ⟨"midnight", 1⟩ ⟨none, 50⟩ 86400005 = true ↔
      toDateStringDay 86400005 ≠ toDateStringDay 50) ∧
    (TimedRotatingFileHandler.shouldRotate ⟨"hour", 2⟩ ⟨none, 0⟩ 7200000 = true ↔
      3600 * 1000 * 2 ≤ 7200000 - 0) ∧
    ((TimedRotatingFileHandler.emit ⟨"midnight", 1⟩ 111 5 100 ⟨none, 50⟩).2 = false ∧
      (TimedRotatingFileHandler.emit ⟨"midnight", 1⟩ 222 6 86400005
        (TimedRotatingFileHandler.emit ⟨"midnight", 1⟩ 111 5 100 ⟨none, 50⟩).1).2 = true) :=
  ⟨(claim_C7 ⟨"midnight", 1⟩ ⟨none, 50⟩).1 rfl 86400005,
   (claim_C7 ⟨"hour", 2⟩ ⟨none, 0⟩).2.1 rfl 7200000 (by decide),
   ((claim_C7 ⟨"midnight", 1⟩ ⟨none, 50⟩).2.2.2 rfl 100 86400005 111 222 5 6
     (by decide)).1 (by decide)⟩

end LoggerSpec
